import Mathlib

/-!
Verification of the Blend Mode Compendium blend-mode engine.

This file shallowly embeds the two Python implementations of the engine:

* `src/functions/blend_mode_functions/blend_mode_functions.py` (the canonical
  implementation, embedded as `BlendModes.rgb_to_hcl`, `BlendModes.hcl_to_rgb`
  and `BlendModes.blend_images`), and
* `src/blend_mode_functions.py` (the legacy near-duplicate, embedded as
  `BlendModes.blend_images_v2`).

All numpy operations in the source are elementwise over the pixel grid (the
only cross-channel operations are per-pixel reductions), so the embedding
models a pixel as a triple of reals and lifts the per-pixel functions to
grids with `List.zipWith`.  Python floats are modelled as real numbers; the
`epsilon` guards of the source are kept literally.
-/

namespace BlendModes

noncomputable section

/-- `epsilon = 1e-10`, the module-level constant of the source. -/
def epsilon : ℝ := 1e-10

/-- A pixel: an (R, G, B) triple of normalized channel values. -/
abbrev Pixel : Type := ℝ × ℝ × ℝ

/-- A pixel grid: a list of rows of pixels (the H×W×3 numpy array). -/
abbrev Grid : Type := List (List Pixel)

/-- `calculate_color_brightness`: the BT.601 luma weighting
`0.299*R + 0.587*G + 0.114*B`. -/
def brightness (p : Pixel) : ℝ := 0.299 * p.1 + 0.587 * p.2.1 + 0.114 * p.2.2

/-- `maxc` of `rgb_to_hcl`: the per-pixel channel maximum. -/
def maxc (p : Pixel) : ℝ := max (max p.1 p.2.1) p.2.2

/-- `minc` of `rgb_to_hcl`: the per-pixel channel minimum. -/
def minc (p : Pixel) : ℝ := min (min p.1 p.2.1) p.2.2

/-- `c = maxc - minc` of `rgb_to_hcl`. -/
def chroma (p : Pixel) : ℝ := maxc p - minc p

/-- The raw (pre-normalization) hue of `rgb_to_hcl`.  The numpy code
initializes `h = 0`, then assigns the `maxc==r` entries, then the `maxc==g`
entries, then the `maxc==b` entries, all restricted to the `c != 0` mask;
a later assignment overwrites an earlier one, so the `maxc==b` formula wins
over `maxc==g`, which wins over `maxc==r`. -/
def hueRaw (p : Pixel) : ℝ :=
  if chroma p = 0 then 0
  else if maxc p = p.2.2 then 4 + (p.1 - p.2.1) / chroma p
  else if maxc p = p.2.1 then 2 + (p.2.2 - p.1) / chroma p
  else (p.2.1 - p.2.2) / chroma p

/-- The normalized hue `(h / 6.0) % 1.0` of `rgb_to_hcl` (numpy `%` on
floats is `Int.fract` composed with division for a modulus of 1). -/
def hue (p : Pixel) : ℝ := Int.fract (hueRaw p / 6)

/-- `rgb_to_hcl`: per-pixel RGB → (hue, chroma, luma). -/
def rgb_to_hcl (p : Pixel) : Pixel := (hue p, chroma p, brightness p)

/-- numpy `t % 2` for a real `t`: `t - 2 * ⌊t / 2⌋`. -/
def hmod2 (t : ℝ) : ℝ := t - 2 * ⌊t / 2⌋

/-- The intermediate `x = c * (1 - |h' % 2 - 1|)` of `hcl_to_rgb`. -/
def xval (c t : ℝ) : ℝ := c * (1 - |hmod2 t - 1|)

/-- The sector triple `(r1, g1, b1)` of `hcl_to_rgb`: six one-unit sectors
of `h' = hue * 6` assign a permutation of `(c, x, 0)`; entries outside all
masks keep the zero initialization. -/
def sectorTriple (t c x : ℝ) : Pixel :=
  if 0 ≤ t ∧ t < 1 then (c, x, 0)
  else if 1 ≤ t ∧ t < 2 then (x, c, 0)
  else if 2 ≤ t ∧ t < 3 then (0, c, x)
  else if 3 ≤ t ∧ t < 4 then (0, x, c)
  else if 4 ≤ t ∧ t < 5 then (x, 0, c)
  else if 5 ≤ t ∧ t < 6 then (c, 0, x)
  else (0, 0, 0)

/-- `np.clip(v, 0, 1)`. -/
def clip01 (v : ℝ) : ℝ := min 1 (max 0 v)

/-- `np.clip(v, epsilon, 1)` (used by `color burn` and `divide`). -/
def clipE (v : ℝ) : ℝ := min 1 (max epsilon v)

/-- The luma adjustment `m = l - (0.299*r1 + 0.587*g1 + 0.114*b1)` of
`hcl_to_rgb`. -/
def mval (l : ℝ) (t : Pixel) : ℝ := l - brightness t

/-- The scale factor `ms = np.where(l > 0, brightness(r1,g1,b1)/l, epsilon)`
of `hcl_to_rgb`. -/
def msval (l : ℝ) (t : Pixel) : ℝ := if l > 0 then brightness t / l else epsilon

/-- The add factor `ma = np.where(m+x > 1, 2m+c+x-2, (m+c-1)/2)` of
`hcl_to_rgb`. -/
def maval (m c x : ℝ) : ℝ := if m + x > 1 then 2 * m + c + x - 2 else (m + c - 1) / 2

/-- One output channel of `hcl_to_rgb`:
`np.clip(np.where(m+c>1, t1+m+ma, np.where(m<0, t1/(ms+epsilon), t1+m)), 0, 1)`. -/
def applyRegime (t1 m c ms ma : ℝ) : ℝ :=
  clip01 (if m + c > 1 then t1 + m + ma else if m < 0 then t1 / (ms + epsilon) else t1 + m)

/-- `hcl_to_rgb`: per-pixel (hue, chroma, luma) → RGB. -/
def hcl_to_rgb (p : Pixel) : Pixel :=
  let h := p.1
  let c := p.2.1
  let l := p.2.2
  let hp := h * 6
  let x := xval c hp
  let t := sectorTriple hp c x
  let m := mval l t
  let ms := msval l t
  let ma := maval m c x
  (applyRegime t.1 m c ms ma, applyRegime t.2.1 m c ms ma, applyRegime t.2.2 m c ms ma)

/-- Lift a per-channel binary operation to pixels (elementwise numpy
arithmetic restricted to one pixel). -/
def pmap2 (f : ℝ → ℝ → ℝ) (p q : Pixel) : Pixel :=
  (f p.1 q.1, f p.2.1 q.2.1, f p.2.2 q.2.2)

/-- The per-pixel blend formula of the canonical `blend_images`
(`src/functions/blend_mode_functions/blend_mode_functions.py`), one entry
per `elif` branch in source order; `none` models the final `else` branch
(print "not implemented yet" and return `None`). -/
def blendFun (mode : String) : Option (Pixel → Pixel → Pixel) :=
  if mode = "normal" then some (fun _ q => q)
  else if mode = "darken" then some (pmap2 (fun a b => min a b))
  else if mode = "multiply" then some (pmap2 (fun a b => a * b))
  else if mode = "color burn" then some (pmap2 (fun a b => 1 - min 1 ((1 - a) / clipE b)))
  else if mode = "linear burn" then some (pmap2 (fun a b => max 0 (a + b - 1)))
  else if mode = "darker color" then
    some (fun p q => if brightness p = min (brightness p) (brightness q) then p else q)
  else if mode = "lighten" then some (pmap2 (fun a b => max a b))
  else if mode = "screen" then some (pmap2 (fun a b => 1 - (1 - a) * (1 - b)))
  else if mode = "color dodge" then some (pmap2 (fun a b => clip01 (a / (1 - b + epsilon))))
  else if mode = "linear dodge" then some (pmap2 (fun a b => clip01 (a + b)))
  else if mode = "lighter color" then
    some (fun p q => if brightness p = max (brightness p) (brightness q) then p else q)
  else if mode = "overlay" then
    some (pmap2 (fun a b => if a < 0.5 then 2 * b * a else 1 - 2 * (1 - b) * (1 - a)))
  else if mode = "soft light" then
    some (pmap2 (fun a b =>
      if b ≤ 0.5 then a * (1 - (1 - 2 * b) * (1 - a))
      else a + (2 * b - 1) * (Real.sqrt a - a)))
  else if mode = "hard light" then
    some (pmap2 (fun a b => if b < 0.5 then 2 * b * a else 1 - 2 * (1 - b) * (1 - a)))
  else if mode = "vivid light" then
    some (pmap2 (fun a b =>
      if b ≤ 0.5 then 1 - (1 - a) / (2 * b + 1e-10) else a / (2 * (1 - b) + 1e-10)))
  else if mode = "linear light" then some (pmap2 (fun a b => a + 2 * b - 1))
  else if mode = "pin light" then
    some (pmap2 (fun a b =>
      if b ≤ 0.5 then min a (2 * b) else max a (2 * (b - 0.5))))
  else if mode = "hard mix" then
    some (pmap2 (fun a b => if a + b ≥ 1 then 1 else 0))
  else if mode = "difference" then some (pmap2 (fun a b => |a - b|))
  else if mode = "exclusion" then some (pmap2 (fun a b => |a + b - 2 * a * b|))
  else if mode = "subtract" then some (pmap2 (fun a b => clip01 (a - b)))
  else if mode = "divide" then some (pmap2 (fun a b => a / clipE b))
  else if mode = "hue" then
    some (fun p q => hcl_to_rgb ((rgb_to_hcl q).1, (rgb_to_hcl p).2.1, (rgb_to_hcl p).2.2))
  else if mode = "saturation" then
    some (fun p q => hcl_to_rgb ((rgb_to_hcl p).1, (rgb_to_hcl q).2.1, (rgb_to_hcl p).2.2))
  else if mode = "color" then
    some (fun p q => hcl_to_rgb ((rgb_to_hcl q).1, (rgb_to_hcl q).2.1, (rgb_to_hcl p).2.2))
  else if mode = "luminosity" then
    some (fun p q => hcl_to_rgb ((rgb_to_hcl p).1, (rgb_to_hcl p).2.1, (rgb_to_hcl q).2.2))
  else none

/-- The mode tags of the canonical formula table, in source dispatch order. -/
def supportedModes : List String :=
  ["normal", "darken", "multiply", "color burn", "linear burn", "darker color",
   "lighten", "screen", "color dodge", "linear dodge", "lighter color",
   "overlay", "soft light", "hard light", "vivid light", "linear light",
   "pin light", "hard mix", "difference", "exclusion", "subtract", "divide",
   "hue", "saturation", "color", "luminosity"]

/-- `numpy.ndarray.shape` of a grid of pixel triples: the list of row
lengths (which also determines the number of rows; the channel count is 3
by construction). -/
def shape (g : Grid) : List ℕ := g.map List.length

/-- Elementwise lift of a per-pixel binary operation to two grids. -/
def gridZip (f : Pixel → Pixel → Pixel) (g1 g2 : Grid) : Grid :=
  List.zipWith (fun r1 r2 => List.zipWith f r1 r2) g1 g2

/-- Clip every channel of a pixel to `[0, 1]`. -/
def clipPixel (p : Pixel) : Pixel := (clip01 p.1, clip01 p.2.1, clip01 p.2.2)

/-- The alpha-compositing step
`np.clip((1 - alpha) * image1 + alpha * blended, 0, 1)` at one pixel. -/
def compositePixel (alpha : ℝ) (p bp : Pixel) : Pixel :=
  (clip01 ((1 - alpha) * p.1 + alpha * bp.1),
   clip01 ((1 - alpha) * p.2.1 + alpha * bp.2.1),
   clip01 ((1 - alpha) * p.2.2 + alpha * bp.2.2))

/-- The three possible outcomes of the canonical `blend_images`:
the raised `ValueError` on a shape mismatch, the print-and-return-`None`
path for an unknown mode, and a computed grid. -/
inductive BlendResult : Type
  | shapeError : BlendResult
  | notImplemented : BlendResult
  | ok (g : Grid) : BlendResult
deriving DecidableEq

/-- The canonical `blend_images(image1, image2, alpha, blend_mode)` of
`src/functions/blend_mode_functions/blend_mode_functions.py`: the shape
check, then mode dispatch, then alpha compositing with final clipping. -/
def blend_images (image1 image2 : Grid) (alpha : ℝ) (mode : String) : BlendResult :=
  if shape image1 ≠ shape image2 then .shapeError
  else
    match blendFun mode with
    | none => .notImplemented
    | some f => .ok (gridZip (fun p q => compositePixel alpha p (f p q)) image1 image2)

/-- `np.sum(image, axis=-1)` restricted to one pixel: the channel sum used
by the legacy `darker color`. -/
def sumChannels (p : Pixel) : ℝ := p.1 + p.2.1 + p.2.2

/-- The per-pixel blend formula of the legacy `blend_images`
(`src/blend_mode_functions.py`), one entry per `elif` branch in source
order; `none` models falling through the chain with `blended_image`
unbound (an `UnboundLocalError` at the compositing line). -/
def blendFun2 (mode : String) : Option (Pixel → Pixel → Pixel) :=
  if mode = "normal" then some (fun _ q => q)
  else if mode = "multiply" then some (pmap2 (fun a b => a * b))
  else if mode = "screen" then some (pmap2 (fun a b => 1 - (1 - a) * (1 - b)))
  else if mode = "overlay" then
    some (pmap2 (fun a b => if a < 128 then 2 * a * b else 1 - 2 * (1 - a) * (1 - b)))
  else if mode = "darken" then some (pmap2 (fun a b => min a b))
  else if mode = "color burn" then
    some (pmap2 (fun a b => 1 - min 1 ((1 - b) / (a + 1e-10))))
  else if mode = "linear burn" then some (pmap2 (fun a b => max 0 (a + b - 1)))
  else if mode = "darker color" then
    some (fun p q => if sumChannels p = min (sumChannels p) (sumChannels q) then p else q)
  else none

/-- Outcomes of the legacy `blend_images`: the raised `ValueError`, the
`UnboundLocalError` crash on an unknown mode, and a computed grid. -/
inductive BlendResult2 : Type
  | shapeError : BlendResult2
  | nameError : BlendResult2
  | ok (g : Grid) : BlendResult2
deriving DecidableEq

/-- The legacy `blend_images(image1, image2, alpha, blend_mode)` of
`src/blend_mode_functions.py`. -/
def blend_images_v2 (image1 image2 : Grid) (alpha : ℝ) (mode : String) : BlendResult2 :=
  if shape image1 ≠ shape image2 then .shapeError
  else
    match blendFun2 mode with
    | none => .nameError
    | some f => .ok (gridZip (fun p q => compositePixel alpha p (f p q)) image1 image2)

/-- All six channel values of a pixel lie in `[0, 1]`. -/
def pixelInUnit (p : Pixel) : Prop :=
  0 ≤ p.1 ∧ p.1 ≤ 1 ∧ 0 ≤ p.2.1 ∧ p.2.1 ≤ 1 ∧ 0 ≤ p.2.2 ∧ p.2.2 ≤ 1

/-- Every pixel of a grid lies in `[0, 1]` channelwise. -/
def gridInUnit (g : Grid) : Prop := ∀ row ∈ g, ∀ p ∈ row, pixelInUnit p

end

/-! ### Basic lemmas about the embedding -/

lemma clip01_nonneg (v : ℝ) : 0 ≤ clip01 v := by
  unfold clip01
  exact le_min (by norm_num) (le_max_left 0 v)

lemma clip01_le_one (v : ℝ) : clip01 v ≤ 1 := min_le_left 1 _

lemma clip01_eq_self {v : ℝ} (h0 : 0 ≤ v) (h1 : v ≤ 1) : clip01 v = v := by
  unfold clip01
  rw [max_eq_right h0, min_eq_right h1]

lemma clipPixel_eq_self {p : Pixel} (h : pixelInUnit p) : clipPixel p = p := by
  obtain ⟨p1, p2, p3⟩ := p
  obtain ⟨h1, h2, h3, h4, h5, h6⟩ := h
  simp only [clipPixel]
  rw [clip01_eq_self h1 h2, clip01_eq_self h3 h4, clip01_eq_self h5 h6]

lemma compositePixel_zero {p : Pixel} (bp : Pixel) (h : pixelInUnit p) :
    compositePixel 0 p bp = p := by
  obtain ⟨p1, p2, p3⟩ := p
  obtain ⟨h1, h2, h3, h4, h5, h6⟩ := h
  simp only [compositePixel]
  norm_num
  rw [clip01_eq_self h1 h2, clip01_eq_self h3 h4, clip01_eq_self h5 h6]
  exact ⟨rfl, rfl, rfl⟩

lemma compositePixel_one (p bp : Pixel) : compositePixel 1 p bp = clipPixel bp := by
  simp only [compositePixel, clipPixel]
  norm_num

lemma mem_zipWith {α β γ : Type} {f : α → β → γ} :
    ∀ {l1 : List α} {l2 : List β} {c : γ}, c ∈ List.zipWith f l1 l2 →
      ∃ a b, a ∈ l1 ∧ b ∈ l2 ∧ c = f a b := by
  intro l1
  induction l1 with
  | nil => intro l2 c h; simp at h
  | cons a as ih =>
    intro l2 c h
    cases l2 with
    | nil => simp at h
    | cons b bs =>
      simp only [List.zipWith, List.mem_cons] at h
      rcases h with h | h
      · exact ⟨a, b, List.mem_cons_self a as, List.mem_cons_self b bs, h⟩
      · obtain ⟨a', b', ha, hb, hc⟩ := ih h
        exact ⟨a', b', List.mem_cons_of_mem a ha, List.mem_cons_of_mem b hb, hc⟩

lemma zipWith_left {α β : Type} :
    ∀ (l1 : List α) (l2 : List β), l1.length = l2.length →
      List.zipWith (fun a _ => a) l1 l2 = l1 := by
  intro l1
  induction l1 with
  | nil => intro l2 _; rfl
  | cons a as ih =>
    intro l2 h
    cases l2 with
    | nil => simp at h
    | cons b bs =>
      simp only [List.length_cons, Nat.add_right_cancel_iff] at h
      simp only [List.zipWith, List.cons.injEq, true_and]
      exact ih bs h

lemma gridZip_left (i1 i2 : Grid) (hsh : shape i1 = shape i2) :
    gridZip (fun p _ => p) i1 i2 = i1 := by
  unfold gridZip
  induction i1 generalizing i2 with
  | nil => rfl
  | cons r rs ih =>
    cases i2 with
    | nil => simp [shape] at hsh
    | cons r' rs' =>
      simp only [shape, List.map_cons, List.cons.injEq] at hsh
      simp only [List.zipWith, List.cons.injEq]
      exact ⟨zipWith_left r r' hsh.1, ih rs' hsh.2⟩

lemma zipWith_congr {α β γ : Type} (f g : α → β → γ) :
    ∀ (l1 : List α) (l2 : List β),
      (∀ a ∈ l1, ∀ b ∈ l2, f a b = g a b) →
      List.zipWith f l1 l2 = List.zipWith g l1 l2 := by
  intro l1
  induction l1 with
  | nil => intro l2 _; rfl
  | cons a as ih =>
    intro l2 h
    cases l2 with
    | nil => rfl
    | cons b bs =>
      simp only [List.zipWith, List.cons.injEq]
      constructor
      · exact h a (List.mem_cons_self a as) b (List.mem_cons_self b bs)
      · exact ih bs fun x hx y hy =>
          h x (List.mem_cons_of_mem a hx) y (List.mem_cons_of_mem b hy)

lemma gridZip_congr (f g : Pixel → Pixel → Pixel) (i1 i2 : Grid)
    (h : ∀ r1 ∈ i1, ∀ r2 ∈ i2, ∀ p ∈ r1, ∀ q ∈ r2, f p q = g p q) :
    gridZip f i1 i2 = gridZip g i1 i2 := by
  unfold gridZip
  apply zipWith_congr
  intro r1 h1 r2 h2
  apply zipWith_congr
  intro p hp q hq
  exact h r1 h1 r2 h2 p hp q hq

lemma blendFun_eq_none {mode : String} (h : mode ∉ supportedModes) :
    blendFun mode = none := by
  simp only [supportedModes, List.mem_cons, List.not_mem_nil, or_false, not_or] at h
  obtain ⟨h1, h2, h3, h4, h5, h6, h7, h8, h9, h10, h11, h12, h13, h14, h15, h16,
    h17, h18, h19, h20, h21, h22, h23, h24, h25, h26⟩ := h
  simp only [blendFun, if_neg h1, if_neg h2, if_neg h3, if_neg h4, if_neg h5,
    if_neg h6, if_neg h7, if_neg h8, if_neg h9, if_neg h10, if_neg h11,
    if_neg h12, if_neg h13, if_neg h14, if_neg h15, if_neg h16, if_neg h17,
    if_neg h18, if_neg h19, if_neg h20, if_neg h21, if_neg h22, if_neg h23,
    if_neg h24, if_neg h25, if_neg h26]

lemma blendFun_isSome {mode : String} (h : mode ∈ supportedModes) :
    ∃ f, blendFun mode = some f := by
  simp only [supportedModes, List.mem_cons, List.not_mem_nil, or_false] at h
  rcases h with rfl | rfl | rfl | rfl | rfl | rfl | rfl | rfl | rfl | rfl | rfl |
    rfl | rfl | rfl | rfl | rfl | rfl | rfl | rfl | rfl | rfl | rfl | rfl | rfl |
    rfl | rfl <;> exact ⟨_, rfl⟩

lemma blend_images_eq_ok {image1 image2 : Grid} {alpha : ℝ} {mode : String}
    {f : Pixel → Pixel → Pixel}
    (hf : blendFun mode = some f) (hsh : shape image1 = shape image2) :
    blend_images image1 image2 alpha mode
      = BlendResult.ok (gridZip (fun p q => compositePixel alpha p (f p q)) image1 image2) := by
  unfold blend_images
  rw [if_neg (not_not_intro hsh), hf]

lemma blend_images_v2_eq_ok {image1 image2 : Grid} {alpha : ℝ} {mode : String}
    {f : Pixel → Pixel → Pixel}
    (hf : blendFun2 mode = some f) (hsh : shape image1 = shape image2) :
    blend_images_v2 image1 image2 alpha mode
      = BlendResult2.ok (gridZip (fun p q => compositePixel alpha p (f p q)) image1 image2) := by
  unfold blend_images_v2
  rw [if_neg (not_not_intro hsh), hf]

lemma gridInUnit_singleton {p : Pixel} (h : pixelInUnit p) : gridInUnit [[p]] := by
  intro row hr q hq
  simp only [List.mem_singleton] at hr
  subst hr
  simp only [List.mem_singleton] at hq
  subst hq
  exact h

lemma pmap2_comm (f2 : ℝ → ℝ → ℝ) (h : ∀ a b, f2 a b = f2 b a) (p q : Pixel) :
    pmap2 f2 p q = pmap2 f2 q p := by
  unfold pmap2
  rw [h p.1 q.1, h p.2.1 q.2.1, h p.2.2 q.2.2]

lemma gridZip_comm (f : Pixel → Pixel → Pixel) (hf : ∀ p q, f p q = f q p)
    (A B : Grid) : gridZip f A B = gridZip f B A := by
  unfold gridZip
  exact List.zipWith_comm_of_comm _ (fun r1 r2 => List.zipWith_comm_of_comm _ hf r1 r2) A B

/-! ### C7: shape mismatch -/

/-- **C7.** For every pair of grids with different shapes, every alpha and
every mode tag, both implementations of `blend_images` signal the
shape-mismatch error (the raised `ValueError`), and never a computed or
partial result: the shape check precedes the mode dispatch and all
blending computation. -/
theorem C7_shape_mismatch (image1 image2 : Grid) (alpha : ℝ) (mode : String)
    (h : shape image1 ≠ shape image2) :
    blend_images image1 image2 alpha mode = BlendResult.shapeError ∧
    blend_images_v2 image1 image2 alpha mode = BlendResult2.shapeError := by
  constructor
  · unfold blend_images
    rw [if_pos h]
  · unfold blend_images_v2
    rw [if_pos h]

/-- Witness for C7: a 10×10×3 grid against a 10×12×3 grid (Scenario D). -/
theorem C7_shape_mismatch_witness :
    blend_images (List.replicate 10 (List.replicate 10 ((0:ℝ), (0:ℝ), (0:ℝ))))
        (List.replicate 10 (List.replicate 12 ((0:ℝ), (0:ℝ), (0:ℝ)))) 0.5 "multiply"
      = BlendResult.shapeError ∧
    blend_images_v2 (List.replicate 10 (List.replicate 10 ((0:ℝ), (0:ℝ), (0:ℝ))))
        (List.replicate 10 (List.replicate 12 ((0:ℝ), (0:ℝ), (0:ℝ)))) 0.5 "multiply"
      = BlendResult2.shapeError :=
  C7_shape_mismatch _ _ 0.5 "multiply" (by
    simp only [shape, List.map_replicate, List.length_replicate]
    decide)

/-! ### C2: unsupported mode -/

/-- **C2.** For every mode tag not in the formula table (and equal-shaped
inputs), the canonical `blend_images` returns the distinguished
not-implemented outcome (the source prints the mode name and returns
`None`), which is distinct from every computed grid result, so a caller
looping over modes can detect it and continue. -/
theorem C2_unsupported_mode (image1 image2 : Grid) (alpha : ℝ) (mode : String)
    (hm : mode ∉ supportedModes) (hsh : shape image1 = shape image2) :
    blend_images image1 image2 alpha mode = BlendResult.notImplemented ∧
    ∀ g : Grid, BlendResult.notImplemented ≠ BlendResult.ok g := by
  constructor
  · unfold blend_images
    rw [if_neg (not_not_intro hsh), blendFun_eq_none hm]
  · intro g h
    exact BlendResult.noConfusion h

/-- Witness for C2: the mode tag `"does not exist"` of Scenario E on a
pair of 1×1 grids. -/
theorem C2_unsupported_mode_witness :
    blend_images [[((0:ℝ), (0:ℝ), (0:ℝ))]] [[((1:ℝ), (0:ℝ), (0:ℝ))]] 1 "does not exist"
      = BlendResult.notImplemented ∧
    ∀ g : Grid, BlendResult.notImplemented ≠ BlendResult.ok g :=
  C2_unsupported_mode _ _ 1 "does not exist" (by decide) rfl

/-! ### C5: no NaN / Inf in the output -/

/-- **C5.** For every pair of equal-shaped `[0,1]` grids, every alpha in
`[0,1]` and every supported mode tag, `blend_images` returns a computed
grid whose channels all lie in `[0,1]`: in the real-number model of the
float computation, every division is guarded (so no value is undefined)
and the final clipping confines every channel, so no not-a-number or
infinite value can appear in the output. -/
theorem C5_output_in_unit (image1 image2 : Grid) (alpha : ℝ) (mode : String)
    (hm : mode ∈ supportedModes) (hsh : shape image1 = shape image2)
    (h1 : gridInUnit image1) (h2 : gridInUnit image2)
    (ha0 : 0 ≤ alpha) (ha1 : alpha ≤ 1) :
    ∃ g, blend_images image1 image2 alpha mode = BlendResult.ok g ∧ gridInUnit g := by
  obtain ⟨f, hf⟩ := blendFun_isSome hm
  refine ⟨_, blend_images_eq_ok hf hsh, ?_⟩
  intro row hrow p hp
  obtain ⟨r1, r2, _, _, hrow_eq⟩ := mem_zipWith hrow
  subst hrow_eq
  obtain ⟨a, b, _, _, hp_eq⟩ := mem_zipWith hp
  subst hp_eq
  exact ⟨clip01_nonneg _, clip01_le_one _, clip01_nonneg _, clip01_le_one _,
    clip01_nonneg _, clip01_le_one _⟩

/-- Witness for C5 at a concrete input: mode `divide` (which divides by
the epsilon-clipped overlay) on 1×1 grids with a zero denominator
channel. -/
theorem C5_output_in_unit_witness :
    ∃ g, blend_images [[((1:ℝ), (1:ℝ), (0.5:ℝ))]] [[((0:ℝ), (1:ℝ), (0:ℝ))]] 1 "divide"
        = BlendResult.ok g ∧ gridInUnit g :=
  C5_output_in_unit _ _ 1 "divide" (by decide) rfl
    (gridInUnit_singleton (by norm_num [pixelInUnit]))
    (gridInUnit_singleton (by norm_num [pixelInUnit]))
    (by norm_num) (by norm_num)

/-! ### C6: alpha endpoints -/

/-- **C6.** For every supported mode (with pixel formula `f`) and every
pair of equal-shaped `[0,1]` grids, `blend_images` at `alpha = 0` returns
exactly the base grid `image1`, and at `alpha = 1` returns exactly the
mode's blended grid clipped channelwise to `[0,1]` (exact equality, hence
within the claimed `1e-6` tolerance). -/
theorem C6_alpha_endpoints (image1 image2 : Grid) (mode : String)
    (f : Pixel → Pixel → Pixel) (hf : blendFun mode = some f)
    (hsh : shape image1 = shape image2)
    (h1 : gridInUnit image1) (h2 : gridInUnit image2) :
    blend_images image1 image2 0 mode = BlendResult.ok image1 ∧
    blend_images image1 image2 1 mode
      = BlendResult.ok (gridZip (fun p q => clipPixel (f p q)) image1 image2) := by
  constructor
  · rw [blend_images_eq_ok hf hsh]
    congr 1
    rw [gridZip_congr (fun p q => compositePixel 0 p (f p q)) (fun p _ => p) image1 image2
      (fun r1 hr1 r2 _ p hp q _ => compositePixel_zero (f p q) (h1 r1 hr1 p hp))]
    exact gridZip_left image1 image2 hsh
  · rw [blend_images_eq_ok hf hsh]
    congr 1
    exact gridZip_congr _ _ image1 image2
      (fun r1 _ r2 _ p _ q _ => compositePixel_one p (f p q))

/-- Witness for C6: Scenario B — base `[1,1,1]`, overlay `[0.5,0.5,0.5]`,
mode `multiply`. -/
theorem C6_alpha_endpoints_witness :
    blend_images [[((1:ℝ), (1:ℝ), (1:ℝ))]] [[((0.5:ℝ), (0.5:ℝ), (0.5:ℝ))]] 0 "multiply"
      = BlendResult.ok [[((1:ℝ), (1:ℝ), (1:ℝ))]] ∧
    blend_images [[((1:ℝ), (1:ℝ), (1:ℝ))]] [[((0.5:ℝ), (0.5:ℝ), (0.5:ℝ))]] 1 "multiply"
      = BlendResult.ok (gridZip (fun p q => clipPixel (pmap2 (fun a b => a * b) p q))
          [[((1:ℝ), (1:ℝ), (1:ℝ))]] [[((0.5:ℝ), (0.5:ℝ), (0.5:ℝ))]]) :=
  C6_alpha_endpoints _ _ "multiply" _ rfl rfl
    (gridInUnit_singleton (by norm_num [pixelInUnit]))
    (gridInUnit_singleton (by norm_num [pixelInUnit]))

/-! ### C9: commutative modes -/

lemma blend_comm_of_comm (A B : Grid) (mode : String) (f2 : ℝ → ℝ → ℝ)
    (hmode : blendFun mode = some (pmap2 f2)) (hcomm : ∀ a b, f2 a b = f2 b a)
    (hsh : shape A = shape B) :
    blend_images A B 1 mode = blend_images B A 1 mode := by
  rw [blend_images_eq_ok hmode hsh, blend_images_eq_ok hmode hsh.symm]
  congr 1
  have hfun : (fun p q => compositePixel 1 p (pmap2 f2 p q))
      = fun p q => clipPixel (pmap2 f2 p q) :=
    funext fun p => funext fun q => compositePixel_one p (pmap2 f2 p q)
  rw [hfun]
  exact gridZip_comm _ (fun p q => congrArg clipPixel (pmap2_comm f2 hcomm p q)) A B

/-- **C9.** Commutativity: for every pair of equal-shaped `[0,1]` grids
and `alpha = 1`, `blend_images A B mode = blend_images B A mode` for each
of `multiply`, `screen`, `difference`, `exclusion`, `linear dodge`. -/
theorem C9_commutative_modes (A B : Grid) (mode : String)
    (hm : mode ∈ ["multiply", "screen", "difference", "exclusion", "linear dodge"])
    (hsh : shape A = shape B) (hA : gridInUnit A) (hB : gridInUnit B) :
    blend_images A B 1 mode = blend_images B A 1 mode := by
  simp only [List.mem_cons, List.not_mem_nil, or_false] at hm
  rcases hm with rfl | rfl | rfl | rfl | rfl
  · exact blend_comm_of_comm A B _ _ rfl (fun a b => mul_comm a b) hsh
  · exact blend_comm_of_comm A B _ _ rfl (fun a b => by ring) hsh
  · exact blend_comm_of_comm A B _ _ rfl (fun a b => abs_sub_comm a b) hsh
  · exact blend_comm_of_comm A B _ _ rfl (fun a b => by rw [show a + b - 2 * a * b = b + a - 2 * b * a by ring]) hsh
  · exact blend_comm_of_comm A B _ _ rfl (fun a b => by rw [add_comm]) hsh

/-- Witness for C9 on concrete 1×1 grids with mode `difference`. -/
theorem C9_commutative_modes_witness :
    blend_images [[((0.25:ℝ), (0.5:ℝ), (1:ℝ))]] [[((1:ℝ), (0:ℝ), (0.125:ℝ))]] 1 "difference"
      = blend_images [[((1:ℝ), (0:ℝ), (0.125:ℝ))]] [[((0.25:ℝ), (0.5:ℝ), (1:ℝ))]] 1 "difference" :=
  C9_commutative_modes _ _ "difference" (by decide) rfl
    (gridInUnit_singleton (by norm_num [pixelInUnit]))
    (gridInUnit_singleton (by norm_num [pixelInUnit]))

/-! ### C4: darker color / lighter color whole-pixel selection -/

noncomputable section

/-- The spec's description of `darker color`: output the base pixel where
`brightness(base) ≤ brightness(overlay)`, else the overlay pixel
(tie → base). -/
def specDarkerSel (p q : Pixel) : Pixel :=
  if brightness p ≤ brightness q then p else q

/-- The spec's description of `lighter color`: the reversed comparison,
tie → base. -/
def specLighterSel (p q : Pixel) : Pixel :=
  if brightness q ≤ brightness p then p else q

end

lemma blendFun_darker_color :
    blendFun "darker color"
      = some (fun p q => if brightness p = min (brightness p) (brightness q) then p else q) :=
  rfl

lemma blendFun_lighter_color :
    blendFun "lighter color"
      = some (fun p q => if brightness p = max (brightness p) (brightness q) then p else q) :=
  rfl

lemma blendFun_overlay :
    blendFun "overlay"
      = some (pmap2 (fun a b => if a < 0.5 then 2 * b * a else 1 - 2 * (1 - b) * (1 - a))) :=
  rfl

lemma blendFun2_overlay :
    blendFun2 "overlay"
      = some (pmap2 (fun a b => if a < 128 then 2 * a * b else 1 - 2 * (1 - a) * (1 - b))) :=
  rfl

lemma darkerSel_cond (p q : Pixel) :
    (if brightness p = min (brightness p) (brightness q) then p else q)
      = specDarkerSel p q := by
  unfold specDarkerSel
  exact if_congr ⟨fun h => min_eq_left_iff.mp h.symm,
    fun h => (min_eq_left h).symm⟩ rfl rfl

lemma lighterSel_cond (p q : Pixel) :
    (if brightness p = max (brightness p) (brightness q) then p else q)
      = specLighterSel p q := by
  unfold specLighterSel
  exact if_congr ⟨fun h => max_eq_left_iff.mp h.symm,
    fun h => (max_eq_left h).symm⟩ rfl rfl

/-- **C4.** At `alpha = 1` on equal-shaped `[0,1]` grids, `darker color`
and `lighter color` each output, per pixel, the whole RGB triple of
exactly one input image, selected by the BT.601-weighted brightness of the
corresponding pixels; ties take the base pixel in both modes, and whenever
the brightnesses differ the two modes take opposite pixels. -/
theorem C4_darker_lighter_color (image1 image2 : Grid)
    (hsh : shape image1 = shape image2)
    (h1 : gridInUnit image1) (h2 : gridInUnit image2) :
    blend_images image1 image2 1 "darker color"
      = BlendResult.ok (gridZip specDarkerSel image1 image2) ∧
    blend_images image1 image2 1 "lighter color"
      = BlendResult.ok (gridZip specLighterSel image1 image2) ∧
    (∀ p q : Pixel, brightness p = brightness q →
      specDarkerSel p q = p ∧ specLighterSel p q = p) ∧
    (∀ p q : Pixel, brightness p ≠ brightness q →
      (specDarkerSel p q = p ∧ specLighterSel p q = q) ∨
      (specDarkerSel p q = q ∧ specLighterSel p q = p)) := by
  refine ⟨?_, ?_, ?_, ?_⟩
  · rw [blend_images_eq_ok blendFun_darker_color hsh]
    congr 1
    refine gridZip_congr _ _ image1 image2 (fun r1 hr1 r2 hr2 p hp q hq => ?_)
    rw [compositePixel_one, apply_ite clipPixel,
      clipPixel_eq_self (h1 r1 hr1 p hp), clipPixel_eq_self (h2 r2 hr2 q hq)]
    exact darkerSel_cond p q
  · rw [blend_images_eq_ok blendFun_lighter_color hsh]
    congr 1
    refine gridZip_congr _ _ image1 image2 (fun r1 hr1 r2 hr2 p hp q hq => ?_)
    rw [compositePixel_one, apply_ite clipPixel,
      clipPixel_eq_self (h1 r1 hr1 p hp), clipPixel_eq_self (h2 r2 hr2 q hq)]
    exact lighterSel_cond p q
  · intro p q h
    unfold specDarkerSel specLighterSel
    rw [if_pos h.le, if_pos h.symm.le]
    exact ⟨rfl, rfl⟩
  · intro p q h
    rcases lt_or_gt_of_ne h with hlt | hgt
    · left
      unfold specDarkerSel specLighterSel
      rw [if_pos hlt.le, if_neg (not_le.mpr hlt)]
      exact ⟨rfl, rfl⟩
    · right
      unfold specDarkerSel specLighterSel
      rw [if_neg (not_le.mpr hgt), if_pos hgt.le]
      exact ⟨rfl, rfl⟩

/-- Witness for C4 on concrete 1×1 grids (`brightness (1,0,0) = 0.299`
against `brightness (0,0,1) = 0.114`). -/
theorem C4_darker_lighter_color_witness :
    blend_images [[((1:ℝ), (0:ℝ), (0:ℝ))]] [[((0:ℝ), (0:ℝ), (1:ℝ))]] 1 "darker color"
      = BlendResult.ok (gridZip specDarkerSel [[((1:ℝ), (0:ℝ), (0:ℝ))]] [[((0:ℝ), (0:ℝ), (1:ℝ))]]) ∧
    blend_images [[((1:ℝ), (0:ℝ), (0:ℝ))]] [[((0:ℝ), (0:ℝ), (1:ℝ))]] 1 "lighter color"
      = BlendResult.ok (gridZip specLighterSel [[((1:ℝ), (0:ℝ), (0:ℝ))]] [[((0:ℝ), (0:ℝ), (1:ℝ))]]) ∧
    (∀ p q : Pixel, brightness p = brightness q →
      specDarkerSel p q = p ∧ specLighterSel p q = p) ∧
    (∀ p q : Pixel, brightness p ≠ brightness q →
      (specDarkerSel p q = p ∧ specLighterSel p q = q) ∨
      (specDarkerSel p q = q ∧ specLighterSel p q = p)) :=
  C4_darker_lighter_color _ _ rfl
    (gridInUnit_singleton (by norm_num [pixelInUnit]))
    (gridInUnit_singleton (by norm_num [pixelInUnit]))

/-! ### C8: the two implementations are not equivalent -/

/-- **C8 counterexample.** On `overlay`, the two implementations disagree:
the legacy file tests `image1 < 128` (a leftover `[0,255]` convention), so
on `[0,1]` data it always takes the first branch, while the canonical file
tests `image1 < 0.5`.  At base `(1,1,1)`, overlay `(0,0,0)`, `alpha = 1`,
the canonical result is white and the legacy result is black. -/
theorem C8_counterexample :
    blend_images [[((1:ℝ), (1:ℝ), (1:ℝ))]] [[((0:ℝ), (0:ℝ), (0:ℝ))]] 1 "overlay"
      = BlendResult.ok [[((1:ℝ), (1:ℝ), (1:ℝ))]] ∧
    blend_images_v2 [[((1:ℝ), (1:ℝ), (1:ℝ))]] [[((0:ℝ), (0:ℝ), (0:ℝ))]] 1 "overlay"
      = BlendResult2.ok [[((0:ℝ), (0:ℝ), (0:ℝ))]] ∧
    ([[((1:ℝ), (1:ℝ), (1:ℝ))]] : Grid) ≠ [[((0:ℝ), (0:ℝ), (0:ℝ))]] := by
  have hsh : shape ([[((1:ℝ), (1:ℝ), (1:ℝ))]] : Grid)
      = shape ([[((0:ℝ), (0:ℝ), (0:ℝ))]] : Grid) := rfl
  refine ⟨?_, ?_, ?_⟩
  · rw [blend_images_eq_ok blendFun_overlay hsh]
    congr 1
    norm_num [gridZip, compositePixel, pmap2, clip01, max_def, min_def]
  · rw [blend_images_v2_eq_ok blendFun2_overlay hsh]
    congr 1
    norm_num [gridZip, compositePixel, pmap2, clip01, max_def, min_def]
  · intro h
    simp only [List.cons.injEq, Prod.mk.injEq, and_true, and_self] at h
    exact one_ne_zero h

/-- **C8 amended.** The two `blend_images` implementations agree on the
modes whose formulas match verbatim — `normal`, `multiply`, `screen`,
`darken`, `linear burn` — for every pair of equal-shaped `[0,1]` grids and
every alpha in `[0,1]`.  (They disagree on the other shared modes:
`overlay` tests `image1 < 128` in the legacy file, `color burn` swaps the
roles of the two images, and `darker color` compares channel sums instead
of BT.601 brightness.) -/
theorem C8_amended_equivalent_modes (image1 image2 : Grid) (alpha : ℝ) (mode : String)
    (hm : mode ∈ ["normal", "multiply", "screen", "darken", "linear burn"])
    (hsh : shape image1 = shape image2)
    (h1 : gridInUnit image1) (h2 : gridInUnit image2)
    (ha0 : 0 ≤ alpha) (ha1 : alpha ≤ 1) :
    ∃ g, blend_images image1 image2 alpha mode = BlendResult.ok g ∧
      blend_images_v2 image1 image2 alpha mode = BlendResult2.ok g := by
  simp only [List.mem_cons, List.not_mem_nil, or_false] at hm
  rcases hm with rfl | rfl | rfl | rfl | rfl
  · exact ⟨_, blend_images_eq_ok rfl hsh, blend_images_v2_eq_ok rfl hsh⟩
  · exact ⟨_, blend_images_eq_ok rfl hsh, blend_images_v2_eq_ok rfl hsh⟩
  · exact ⟨_, blend_images_eq_ok rfl hsh, blend_images_v2_eq_ok rfl hsh⟩
  · exact ⟨_, blend_images_eq_ok rfl hsh, blend_images_v2_eq_ok rfl hsh⟩
  · exact ⟨_, blend_images_eq_ok rfl hsh, blend_images_v2_eq_ok rfl hsh⟩

/-- Witness for the amended C8: mode `screen` on concrete 1×1 grids. -/
theorem C8_amended_equivalent_modes_witness :
    ∃ g, blend_images [[((0.25:ℝ), (0.5:ℝ), (1:ℝ))]] [[((1:ℝ), (0:ℝ), (0.125:ℝ))]] 0.5 "screen"
        = BlendResult.ok g ∧
      blend_images_v2 [[((0.25:ℝ), (0.5:ℝ), (1:ℝ))]] [[((1:ℝ), (0:ℝ), (0.125:ℝ))]] 0.5 "screen"
        = BlendResult2.ok g :=
  C8_amended_equivalent_modes _ _ 0.5 "screen" (by decide) rfl
    (gridInUnit_singleton (by norm_num [pixelInUnit]))
    (gridInUnit_singleton (by norm_num [pixelInUnit]))
    (by norm_num) (by norm_num)

/-! ### Helper lemmas about the HCL conversion -/

lemma hmod2_eq_fract (t : ℝ) : hmod2 t = 2 * Int.fract (t / 2) := by
  unfold hmod2 Int.fract
  ring

lemma hmod2_nonneg (t : ℝ) : 0 ≤ hmod2 t := by
  rw [hmod2_eq_fract]
  exact mul_nonneg (by norm_num) (Int.fract_nonneg _)

lemma hmod2_lt_two (t : ℝ) : hmod2 t < 2 := by
  rw [hmod2_eq_fract]
  have := Int.fract_lt_one (t / 2)
  linarith

lemma xval_nonneg (c t : ℝ) (hc : 0 ≤ c) : 0 ≤ xval c t := by
  unfold xval
  apply mul_nonneg hc
  have h1 := hmod2_nonneg t
  have h2 := hmod2_lt_two t
  have : |hmod2 t - 1| ≤ 1 := abs_le.mpr ⟨by linarith, by linarith⟩
  linarith

lemma xval_le (c t : ℝ) (hc : 0 ≤ c) : xval c t ≤ c := by
  unfold xval
  have : 1 - |hmod2 t - 1| ≤ 1 := by
    have := abs_nonneg (hmod2 t - 1)
    linarith
  nlinarith

lemma clip01_pos {v : ℝ} (hv : 0 < v) : 0 < clip01 v := by
  unfold clip01
  rw [max_eq_right hv.le]
  exact lt_min (by norm_num) hv

lemma clip01_of_ge_one {v : ℝ} (hv : 1 ≤ v) : clip01 v = 1 := by
  unfold clip01
  rw [max_eq_right (by linarith), min_eq_left hv]

/-! ### C3: the "too bright" regime of `hcl_to_rgb` -/

/-- **C3 counterexample.** At the HCL pixel `(h, c, l) = (0, 1/2, 4/5)` the
"too bright" condition `m + c > 1` holds (`m = 0.6505`), but the add
factor actually used is `(m + c - 1)/2` (because `m + x = 0.6505 ≤ 1`),
not the claimed `2m + c + x - 2`: the green channel comes out as
`0.72575`, while the claimed formula would give `0.4515`. -/
theorem C3_counterexample :
    mval (4/5) (sectorTriple ((0:ℝ) * 6) (1/2) (xval (1/2) ((0:ℝ) * 6))) + 1/2 > 1 ∧
    (hcl_to_rgb ((0:ℝ), 1/2, 4/5)).2.1
      ≠ clip01 ((sectorTriple ((0:ℝ) * 6) (1/2) (xval (1/2) ((0:ℝ) * 6))).2.1
          + mval (4/5) (sectorTriple ((0:ℝ) * 6) (1/2) (xval (1/2) ((0:ℝ) * 6)))
          + (2 * mval (4/5) (sectorTriple ((0:ℝ) * 6) (1/2) (xval (1/2) ((0:ℝ) * 6)))
              + 1/2 + xval (1/2) ((0:ℝ) * 6) - 2)) := by
  have hx : xval (1/2) ((0:ℝ) * 6) = 0 := by
    unfold xval hmod2
    norm_num
  have ht : sectorTriple ((0:ℝ) * 6) (1/2) (xval (1/2) ((0:ℝ) * 6)) = (1/2, 0, 0) := by
    rw [hx]
    unfold sectorTriple
    norm_num
  have hm : mval (4/5) (sectorTriple ((0:ℝ) * 6) (1/2) (xval (1/2) ((0:ℝ) * 6)))
      = 0.6505 := by
    rw [ht]
    unfold mval brightness
    norm_num
  have hm' : mval (4/5) ((1/2, 0, 0) : Pixel) = 0.6505 := by
    unfold mval brightness
    norm_num
  refine ⟨by rw [hm]; norm_num, ?_⟩
  have hval : (hcl_to_rgb ((0:ℝ), 1/2, 4/5)).2.1 = 0.72575 := by
    simp only [hcl_to_rgb]
    rw [ht, hm', hx]
    norm_num [applyRegime, maval, clip01, max_def, min_def]
  rw [hval, hm, ht, hx]
  norm_num [clip01, max_def, min_def]

/-- **C3 amended.** In the "too bright" regime (`m + chroma > 1`), each
output channel of `hcl_to_rgb` equals `clip(channel1 + m + ma, 0, 1)`,
where the correction term is `ma = 2m + chroma + x − 2` when `m + x > 1`
and `ma = (m + chroma − 1)/2` otherwise. -/
theorem C3_amended_bright_regime (h c l : ℝ)
    (hbright : mval l (sectorTriple (h * 6) c (xval c (h * 6))) + c > 1) :
    hcl_to_rgb (h, c, l)
      = (clip01 ((sectorTriple (h * 6) c (xval c (h * 6))).1
            + mval l (sectorTriple (h * 6) c (xval c (h * 6)))
            + (if mval l (sectorTriple (h * 6) c (xval c (h * 6))) + xval c (h * 6) > 1
               then 2 * mval l (sectorTriple (h * 6) c (xval c (h * 6))) + c + xval c (h * 6) - 2
               else (mval l (sectorTriple (h * 6) c (xval c (h * 6))) + c - 1) / 2)),
         clip01 ((sectorTriple (h * 6) c (xval c (h * 6))).2.1
            + mval l (sectorTriple (h * 6) c (xval c (h * 6)))
            + (if mval l (sectorTriple (h * 6) c (xval c (h * 6))) + xval c (h * 6) > 1
               then 2 * mval l (sectorTriple (h * 6) c (xval c (h * 6))) + c + xval c (h * 6) - 2
               else (mval l (sectorTriple (h * 6) c (xval c (h * 6))) + c - 1) / 2)),
         clip01 ((sectorTriple (h * 6) c (xval c (h * 6))).2.2
            + mval l (sectorTriple (h * 6) c (xval c (h * 6)))
            + (if mval l (sectorTriple (h * 6) c (xval c (h * 6))) + xval c (h * 6) > 1
               then 2 * mval l (sectorTriple (h * 6) c (xval c (h * 6))) + c + xval c (h * 6) - 2
               else (mval l (sectorTriple (h * 6) c (xval c (h * 6))) + c - 1) / 2))) := by
  simp only [hcl_to_rgb]
  unfold applyRegime maval
  rw [if_pos hbright, if_pos hbright, if_pos hbright]

/-- Witness for the amended C3 at the concrete bright-regime pixel
`(0, 1/2, 4/5)`. -/
theorem C3_amended_bright_regime_witness :
    hcl_to_rgb ((0:ℝ), 1/2, 4/5)
      = (clip01 ((sectorTriple ((0:ℝ) * 6) (1/2) (xval (1/2) ((0:ℝ) * 6))).1
            + mval (4/5) (sectorTriple ((0:ℝ) * 6) (1/2) (xval (1/2) ((0:ℝ) * 6)))
            + (if mval (4/5) (sectorTriple ((0:ℝ) * 6) (1/2) (xval (1/2) ((0:ℝ) * 6)))
                  + xval (1/2) ((0:ℝ) * 6) > 1
               then 2 * mval (4/5) (sectorTriple ((0:ℝ) * 6) (1/2) (xval (1/2) ((0:ℝ) * 6)))
                  + 1/2 + xval (1/2) ((0:ℝ) * 6) - 2
               else (mval (4/5) (sectorTriple ((0:ℝ) * 6) (1/2) (xval (1/2) ((0:ℝ) * 6)))
                  + 1/2 - 1) / 2)),
         clip01 ((sectorTriple ((0:ℝ) * 6) (1/2) (xval (1/2) ((0:ℝ) * 6))).2.1
            + mval (4/5) (sectorTriple ((0:ℝ) * 6) (1/2) (xval (1/2) ((0:ℝ) * 6)))
            + (if mval (4/5) (sectorTriple ((0:ℝ) * 6) (1/2) (xval (1/2) ((0:ℝ) * 6)))
                  + xval (1/2) ((0:ℝ) * 6) > 1
               then 2 * mval (4/5) (sectorTriple ((0:ℝ) * 6) (1/2) (xval (1/2) ((0:ℝ) * 6)))
                  + 1/2 + xval (1/2) ((0:ℝ) * 6) - 2
               else (mval (4/5) (sectorTriple ((0:ℝ) * 6) (1/2) (xval (1/2) ((0:ℝ) * 6)))
                  + 1/2 - 1) / 2)),
         clip01 ((sectorTriple ((0:ℝ) * 6) (1/2) (xval (1/2) ((0:ℝ) * 6))).2.2
            + mval (4/5) (sectorTriple ((0:ℝ) * 6) (1/2) (xval (1/2) ((0:ℝ) * 6)))
            + (if mval (4/5) (sectorTriple ((0:ℝ) * 6) (1/2) (xval (1/2) ((0:ℝ) * 6)))
                  + xval (1/2) ((0:ℝ) * 6) > 1
               then 2 * mval (4/5) (sectorTriple ((0:ℝ) * 6) (1/2) (xval (1/2) ((0:ℝ) * 6)))
                  + 1/2 + xval (1/2) ((0:ℝ) * 6) - 2
               else (mval (4/5) (sectorTriple ((0:ℝ) * 6) (1/2) (xval (1/2) ((0:ℝ) * 6)))
                  + 1/2 - 1) / 2))) :=
  C3_amended_bright_regime 0 (1/2) (4/5) (by
    have hx : xval (1/2) ((0:ℝ) * 6) = 0 := by
      unfold xval hmod2
      norm_num
    have ht : sectorTriple ((0:ℝ) * 6) (1/2) (xval (1/2) ((0:ℝ) * 6)) = (1/2, 0, 0) := by
      rw [hx]
      unfold sectorTriple
      norm_num
    rw [ht]
    unfold mval brightness
    norm_num)

/-! ### Evaluation lemmas for `Int.fract`, `hmod2` and `sectorTriple` -/

lemma fract_eq_self_of {x : ℝ} (h1 : 0 ≤ x) (h2 : x < 1) : Int.fract x = x :=
  Int.fract_eq_self.mpr ⟨h1, h2⟩

lemma fract_neg_eq {x : ℝ} (h1 : -1 ≤ x) (h2 : x < 0) : Int.fract x = x + 1 := by
  have e : Int.fract (x + (1:ℤ)) = Int.fract x := Int.fract_add_int x 1
  rw [← e]
  push_cast
  exact fract_eq_self_of (by linarith) (by linarith)

lemma hmod2_eq0 {t : ℝ} (h1 : 0 ≤ t) (h2 : t < 2) : hmod2 t = t := by
  unfold hmod2
  have hf : ⌊t / 2⌋ = 0 := by
    rw [Int.floor_eq_iff]
    push_cast
    constructor <;> linarith
  rw [hf]
  push_cast
  ring

lemma hmod2_eq1 {t : ℝ} (h1 : 2 ≤ t) (h2 : t < 4) : hmod2 t = t - 2 := by
  unfold hmod2
  have hf : ⌊t / 2⌋ = 1 := by
    rw [Int.floor_eq_iff]
    push_cast
    constructor <;> linarith
  rw [hf]
  push_cast
  ring

lemma hmod2_eq2 {t : ℝ} (h1 : 4 ≤ t) (h2 : t < 6) : hmod2 t = t - 4 := by
  unfold hmod2
  have hf : ⌊t / 2⌋ = 2 := by
    rw [Int.floor_eq_iff]
    push_cast
    constructor <;> linarith
  rw [hf]
  push_cast
  ring

lemma sectorTriple_sec0 (t c x : ℝ) (h1 : 0 ≤ t) (h2 : t < 1) :
    sectorTriple t c x = (c, x, 0) := by
  unfold sectorTriple
  rw [if_pos ⟨h1, h2⟩]

lemma sectorTriple_sec1 (t c x : ℝ) (h1 : 1 ≤ t) (h2 : t < 2) :
    sectorTriple t c x = (x, c, 0) := by
  unfold sectorTriple
  rw [if_neg (by intro hcon; linarith [hcon.2]), if_pos ⟨h1, h2⟩]

lemma sectorTriple_sec2 (t c x : ℝ) (h1 : 2 ≤ t) (h2 : t < 3) :
    sectorTriple t c x = (0, c, x) := by
  unfold sectorTriple
  rw [if_neg (by intro hcon; linarith [hcon.2]),
    if_neg (by intro hcon; linarith [hcon.2]), if_pos ⟨h1, h2⟩]

lemma sectorTriple_sec3 (t c x : ℝ) (h1 : 3 ≤ t) (h2 : t < 4) :
    sectorTriple t c x = (0, x, c) := by
  unfold sectorTriple
  rw [if_neg (by intro hcon; linarith [hcon.2]),
    if_neg (by intro hcon; linarith [hcon.2]),
    if_neg (by intro hcon; linarith [hcon.2]), if_pos ⟨h1, h2⟩]

lemma sectorTriple_sec4 (t c x : ℝ) (h1 : 4 ≤ t) (h2 : t < 5) :
    sectorTriple t c x = (x, 0, c) := by
  unfold sectorTriple
  rw [if_neg (by intro hcon; linarith [hcon.2]),
    if_neg (by intro hcon; linarith [hcon.2]),
    if_neg (by intro hcon; linarith [hcon.2]),
    if_neg (by intro hcon; linarith [hcon.2]), if_pos ⟨h1, h2⟩]

lemma sectorTriple_sec5 (t c x : ℝ) (h1 : 5 ≤ t) (h2 : t < 6) :
    sectorTriple t c x = (c, 0, x) := by
  unfold sectorTriple
  rw [if_neg (by intro hcon; linarith [hcon.2]),
    if_neg (by intro hcon; linarith [hcon.2]),
    if_neg (by intro hcon; linarith [hcon.2]),
    if_neg (by intro hcon; linarith [hcon.2]),
    if_neg (by intro hcon; linarith [hcon.2]), if_pos ⟨h1, h2⟩]

/-! ### C10: zero-luma, positive-chroma pixels -/

lemma zero_luma_core (h c : ℝ) (T : Pixel) (hc : 0 < c) (hc1 : c ≤ 1)
    (ht : sectorTriple (h * 6) c (xval c (h * 6)) = T)
    (h1 : 0 ≤ T.1) (h2 : 0 ≤ T.2.1) (h3 : 0 ≤ T.2.2)
    (hbr : 0 < brightness T)
    (hcin : T.1 = c ∨ T.2.1 = c ∨ T.2.2 = c) :
    mval 0 T < 0 ∧ msval 0 T = epsilon ∧
    hcl_to_rgb (h, c, 0)
      = (clip01 (T.1 / (epsilon + epsilon)), clip01 (T.2.1 / (epsilon + epsilon)),
         clip01 (T.2.2 / (epsilon + epsilon))) ∧
    hcl_to_rgb (h, c, 0) ≠ ((0:ℝ), (0:ℝ), (0:ℝ)) ∧
    (2 * epsilon ≤ c →
      (hcl_to_rgb (h, c, 0)).1 = 1 ∨ (hcl_to_rgb (h, c, 0)).2.1 = 1 ∨
      (hcl_to_rgb (h, c, 0)).2.2 = 1) := by
  have heps : (0:ℝ) < epsilon := by norm_num [epsilon]
  have hm : mval 0 T < 0 := by
    unfold mval
    linarith
  have hms : msval 0 T = epsilon := by
    unfold msval
    rw [if_neg (lt_irrefl 0)]
  have hnb : ¬(mval 0 T + c > 1) := by
    push_neg
    unfold mval
    linarith
  have hrgb : hcl_to_rgb (h, c, 0)
      = (clip01 (T.1 / (epsilon + epsilon)), clip01 (T.2.1 / (epsilon + epsilon)),
         clip01 (T.2.2 / (epsilon + epsilon))) := by
    simp only [hcl_to_rgb]
    rw [ht, hms]
    unfold applyRegime
    rw [if_neg hnb, if_neg hnb, if_neg hnb, if_pos hm, if_pos hm, if_pos hm]
  refine ⟨hm, hms, hrgb, ?_, ?_⟩
  · intro heq
    rw [hrgb] at heq
    have h2e : (0:ℝ) < epsilon + epsilon := by linarith
    rcases hcin with e | e | e
    · have : (0:ℝ) < clip01 (T.1 / (epsilon + epsilon)) :=
        clip01_pos (div_pos (e ▸ hc) h2e)
      rw [show clip01 (T.1 / (epsilon + epsilon)) = 0 from congrArg Prod.fst heq] at this
      exact lt_irrefl 0 this
    · have : (0:ℝ) < clip01 (T.2.1 / (epsilon + epsilon)) :=
        clip01_pos (div_pos (e ▸ hc) h2e)
      have e2 : clip01 (T.2.1 / (epsilon + epsilon)) = 0 :=
        congrArg (fun p : Pixel => p.2.1) heq
      rw [e2] at this
      exact lt_irrefl 0 this
    · have : (0:ℝ) < clip01 (T.2.2 / (epsilon + epsilon)) :=
        clip01_pos (div_pos (e ▸ hc) h2e)
      have e2 : clip01 (T.2.2 / (epsilon + epsilon)) = 0 :=
        congrArg (fun p : Pixel => p.2.2) heq
      rw [e2] at this
      exact lt_irrefl 0 this
  · intro h2e
    have hpos : (0:ℝ) < epsilon + epsilon := by linarith
    rcases hcin with e | e | e
    · left
      rw [hrgb]
      exact clip01_of_ge_one ((le_div_iff hpos).mpr (by rw [e]; linarith))
    · right; left
      rw [hrgb]
      exact clip01_of_ge_one ((le_div_iff hpos).mpr (by rw [e]; linarith))
    · right; right
      rw [hrgb]
      exact clip01_of_ge_one ((le_div_iff hpos).mpr (by rw [e]; linarith))

/-- **C10 counterexample.** The HCL pixel `(0, 1e-10, 0)` has `luma = 0`
and `chroma = 1e-10 > 0`, and its sector triple's nonzero channel is
`r1 = 1e-10 ≠ 0`; yet `hcl_to_rgb` returns `(1/2, 0, 0)`: the divided
channel `1e-10 / (epsilon + epsilon) = 1/2` is NOT clipped to `1`, so the
output is not a maximally bright color. -/
theorem C10_counterexample :
    (0:ℝ) < 1e-10 ∧
    (sectorTriple ((0:ℝ) * 6) (1e-10) (xval (1e-10) ((0:ℝ) * 6))).1 ≠ 0 ∧
    hcl_to_rgb ((0:ℝ), 1e-10, 0) = (1/2, 0, 0) ∧
    ((1:ℝ)/2) ≠ 1 := by
  have hx : xval (1e-10) ((0:ℝ) * 6) = 0 := by
    unfold xval hmod2
    norm_num
  have ht : sectorTriple ((0:ℝ) * 6) (1e-10) (xval (1e-10) ((0:ℝ) * 6))
      = (1e-10, 0, 0) := by
    rw [hx]
    unfold sectorTriple
    norm_num
  refine ⟨by norm_num, by rw [ht]; norm_num, ?_, by norm_num⟩
  obtain ⟨-, -, hrgb, -, -⟩ :=
    zero_luma_core 0 (1e-10) ((1e-10, 0, 0) : Pixel) (by norm_num) (by norm_num) ht
      (by norm_num) le_rfl le_rfl (by unfold brightness; norm_num)
      (Or.inl rfl)
  rw [hrgb]
  norm_num [epsilon, clip01, max_def, min_def]

/-- **C10 amended.** For every HCL pixel with `luma = 0`, `0 < chroma ≤ 1`
and hue in `[0, 1)`, `hcl_to_rgb` takes the "too dark" regime (`m < 0`)
with scale factor `ms = epsilon`, and each output channel equals
`clip(channel1 / (2*epsilon), 0, 1)`.  The output is never black (the
sector triple's chroma-carrying channel is positive), and it saturates to
a maximally bright channel value of 1 exactly when the channel is at least
`2*epsilon` — in particular whenever `chroma ≥ 2*epsilon` (the claim's
unconditional "clipped to 1" fails for `0 < chroma < 2*epsilon`). -/
theorem C10_amended_zero_luma (h c : ℝ) (hh0 : 0 ≤ h) (hh1 : h < 1)
    (hc : 0 < c) (hc1 : c ≤ 1) :
    mval 0 (sectorTriple (h * 6) c (xval c (h * 6))) < 0 ∧
    msval 0 (sectorTriple (h * 6) c (xval c (h * 6))) = epsilon ∧
    hcl_to_rgb (h, c, 0)
      = (clip01 ((sectorTriple (h * 6) c (xval c (h * 6))).1 / (epsilon + epsilon)),
         clip01 ((sectorTriple (h * 6) c (xval c (h * 6))).2.1 / (epsilon + epsilon)),
         clip01 ((sectorTriple (h * 6) c (xval c (h * 6))).2.2 / (epsilon + epsilon))) ∧
    hcl_to_rgb (h, c, 0) ≠ ((0:ℝ), (0:ℝ), (0:ℝ)) ∧
    (2 * epsilon ≤ c →
      (hcl_to_rgb (h, c, 0)).1 = 1 ∨ (hcl_to_rgb (h, c, 0)).2.1 = 1 ∨
      (hcl_to_rgb (h, c, 0)).2.2 = 1) := by
  have ht0 : 0 ≤ h * 6 := mul_nonneg hh0 (by norm_num)
  have ht6 : h * 6 < 6 := by linarith
  have hx0 : 0 ≤ xval c (h * 6) := xval_nonneg c (h * 6) hc.le
  by_cases k1 : h * 6 < 1
  · have ht : sectorTriple (h * 6) c (xval c (h * 6)) = (c, xval c (h * 6), 0) := by
      unfold sectorTriple
      rw [if_pos ⟨ht0, k1⟩]
    refine zero_luma_core h c (sectorTriple (h * 6) c (xval c (h * 6))) hc hc1 rfl
        ?_ ?_ ?_ ?_ ?_ <;> rw [ht] <;>
      first
        | exact hc.le
        | exact hx0
        | exact le_rfl
        | (norm_num [brightness] <;> linarith [hc, hx0])
        | simp
  · push_neg at k1
    by_cases k2 : h * 6 < 2
    · have ht : sectorTriple (h * 6) c (xval c (h * 6)) = (xval c (h * 6), c, 0) := by
        unfold sectorTriple
        rw [if_neg (by intro hcon; linarith [hcon.2]), if_pos ⟨k1, k2⟩]
      refine zero_luma_core h c (sectorTriple (h * 6) c (xval c (h * 6))) hc hc1 rfl
          ?_ ?_ ?_ ?_ ?_ <;> rw [ht] <;>
        first
          | exact hc.le
          | exact hx0
          | exact le_rfl
          | (norm_num [brightness] <;> linarith [hc, hx0])
          | simp
    · push_neg at k2
      by_cases k3 : h * 6 < 3
      · have ht : sectorTriple (h * 6) c (xval c (h * 6)) = (0, c, xval c (h * 6)) := by
          unfold sectorTriple
          rw [if_neg (by intro hcon; linarith [hcon.2]),
            if_neg (by intro hcon; linarith [hcon.2]), if_pos ⟨k2, k3⟩]
        refine zero_luma_core h c (sectorTriple (h * 6) c (xval c (h * 6))) hc hc1 rfl
            ?_ ?_ ?_ ?_ ?_ <;> rw [ht] <;>
          first
            | exact hc.le
            | exact hx0
            | exact le_rfl
            | (norm_num [brightness] <;> linarith [hc, hx0])
            | simp
      · push_neg at k3
        by_cases k4 : h * 6 < 4
        · have ht : sectorTriple (h * 6) c (xval c (h * 6)) = (0, xval c (h * 6), c) := by
            unfold sectorTriple
            rw [if_neg (by intro hcon; linarith [hcon.2]),
              if_neg (by intro hcon; linarith [hcon.2]),
              if_neg (by intro hcon; linarith [hcon.2]), if_pos ⟨k3, k4⟩]
          refine zero_luma_core h c (sectorTriple (h * 6) c (xval c (h * 6))) hc hc1 rfl
              ?_ ?_ ?_ ?_ ?_ <;> rw [ht] <;>
            first
              | exact hc.le
              | exact hx0
              | exact le_rfl
              | (norm_num [brightness] <;> linarith [hc, hx0])
              | simp
        · push_neg at k4
          by_cases k5 : h * 6 < 5
          · have ht : sectorTriple (h * 6) c (xval c (h * 6)) = (xval c (h * 6), 0, c) := by
              unfold sectorTriple
              rw [if_neg (by intro hcon; linarith [hcon.2]),
                if_neg (by intro hcon; linarith [hcon.2]),
                if_neg (by intro hcon; linarith [hcon.2]),
                if_neg (by intro hcon; linarith [hcon.2]), if_pos ⟨k4, k5⟩]
            refine zero_luma_core h c (sectorTriple (h * 6) c (xval c (h * 6))) hc hc1 rfl
                ?_ ?_ ?_ ?_ ?_ <;> rw [ht] <;>
              first
                | exact hc.le
                | exact hx0
                | exact le_rfl
                | (norm_num [brightness] <;> linarith [hc, hx0])
                | simp
          · push_neg at k5
            have ht : sectorTriple (h * 6) c (xval c (h * 6)) = (c, 0, xval c (h * 6)) := by
              unfold sectorTriple
              rw [if_neg (by intro hcon; linarith [hcon.2]),
                if_neg (by intro hcon; linarith [hcon.2]),
                if_neg (by intro hcon; linarith [hcon.2]),
                if_neg (by intro hcon; linarith [hcon.2]),
                if_neg (by intro hcon; linarith [hcon.2]), if_pos ⟨k5, ht6⟩]
            refine zero_luma_core h c (sectorTriple (h * 6) c (xval c (h * 6))) hc hc1 rfl
                ?_ ?_ ?_ ?_ ?_ <;> rw [ht] <;>
              first
                | exact hc.le
                | exact hx0
                | exact le_rfl
                | (norm_num [brightness] <;> linarith [hc, hx0])
                | simp

/-- Witness for the amended C10 at the concrete pixel `(0, 1/2, 0)`. -/
theorem C10_amended_zero_luma_witness :
    mval 0 (sectorTriple ((0:ℝ) * 6) (1/2) (xval (1/2) ((0:ℝ) * 6))) < 0 ∧
    msval 0 (sectorTriple ((0:ℝ) * 6) (1/2) (xval (1/2) ((0:ℝ) * 6))) = epsilon ∧
    hcl_to_rgb ((0:ℝ), 1/2, 0)
      = (clip01 ((sectorTriple ((0:ℝ) * 6) (1/2) (xval (1/2) ((0:ℝ) * 6))).1
            / (epsilon + epsilon)),
         clip01 ((sectorTriple ((0:ℝ) * 6) (1/2) (xval (1/2) ((0:ℝ) * 6))).2.1
            / (epsilon + epsilon)),
         clip01 ((sectorTriple ((0:ℝ) * 6) (1/2) (xval (1/2) ((0:ℝ) * 6))).2.2
            / (epsilon + epsilon))) ∧
    hcl_to_rgb ((0:ℝ), 1/2, 0) ≠ ((0:ℝ), (0:ℝ), (0:ℝ)) ∧
    (2 * epsilon ≤ 1/2 →
      (hcl_to_rgb ((0:ℝ), 1/2, 0)).1 = 1 ∨ (hcl_to_rgb ((0:ℝ), 1/2, 0)).2.1 = 1 ∨
      (hcl_to_rgb ((0:ℝ), 1/2, 0)).2.2 = 1) :=
  C10_amended_zero_luma 0 (1/2) le_rfl (by norm_num) (by norm_num) (by norm_num)

/-! ### C1: the RGB → HCL → RGB round trip -/

/-- The sector triple reconstructed by `hcl_to_rgb` from the hue and chroma
computed by `rgb_to_hcl` is exactly the min-subtracted channel triple. -/
lemma sector_reconstruct (r g b : ℝ) (hc : 0 < chroma (r, g, b)) :
    sectorTriple (hue (r, g, b) * 6) (chroma (r, g, b))
        (xval (chroma (r, g, b)) (hue (r, g, b) * 6))
      = (r - minc (r, g, b), g - minc (r, g, b), b - minc (r, g, b)) := by
  have hcne : chroma (r, g, b) ≠ 0 := hc.ne'
  have hrM : r ≤ maxc (r, g, b) := le_trans (le_max_left r g) (le_max_left _ b)
  have hgM : g ≤ maxc (r, g, b) := le_trans (le_max_right r g) (le_max_left _ b)
  have hbM : b ≤ maxc (r, g, b) := le_max_right _ b
  have hchroma : chroma (r, g, b) = maxc (r, g, b) - minc (r, g, b) := rfl
  by_cases hb : maxc (r, g, b) = b
  · -- maxc == b wins the mask overwrite order
    have hRaw : hueRaw (r, g, b) = 4 + (r - g) / chroma (r, g, b) := by
      simp only [hueRaw]
      rw [if_neg hcne, if_pos hb]
    have hgb : g ≤ b := hb ▸ hgM
    have hrb : r ≤ b := hb ▸ hrM
    rcases lt_or_le r g with hrg | hgr
    · -- sector 3: r < g ≤ b
      have hm : minc (r, g, b) = r := by
        show min (min r g) b = r
        rw [min_eq_left hrg.le, min_eq_left (le_trans hrg.le hgb)]
      have hcval : chroma (r, g, b) = b - r := by rw [hchroma, hb, hm]
      have hq1 : (r - g) / chroma (r, g, b) < 0 :=
        div_neg_of_neg_of_pos (by linarith) hc
      have hq2 : -1 ≤ (r - g) / chroma (r, g, b) := by
        rw [le_div_iff₀ hc, hcval]
        linarith
      have hh : hue (r, g, b) = (4 + (r - g) / chroma (r, g, b)) / 6 := by
        unfold hue
        rw [hRaw]
        exact fract_eq_self_of (by linarith) (by linarith)
      have hh6 : hue (r, g, b) * 6 = 4 + (r - g) / chroma (r, g, b) := by
        rw [hh]; ring
      rw [hh6, sectorTriple_sec3 _ _ _ (by linarith) (by linarith)]
      have hx : xval (chroma (r, g, b)) (4 + (r - g) / chroma (r, g, b)) = g - r := by
        unfold xval
        rw [hmod2_eq1 (by linarith) (by linarith),
          abs_of_nonneg (by linarith : (0:ℝ) ≤ 4 + (r - g) / chroma (r, g, b) - 2 - 1)]
        field_simp
        ring
      rw [hx, hm, hcval]
      exact Prod.ext (by ring) (Prod.ext (by ring) (by ring))
    · rcases lt_or_le r b with hrblt | hbr
      · -- sector 4: g ≤ r < b
        have hm : minc (r, g, b) = g := by
          show min (min r g) b = g
          rw [min_eq_right hgr, min_eq_left hgb]
        have hcval : chroma (r, g, b) = b - g := by rw [hchroma, hb, hm]
        have hq1 : 0 ≤ (r - g) / chroma (r, g, b) :=
          div_nonneg (by linarith) hc.le
        have hq2 : (r - g) / chroma (r, g, b) < 1 := by
          rw [div_lt_one hc, hcval]
          linarith
        have hh : hue (r, g, b) = (4 + (r - g) / chroma (r, g, b)) / 6 := by
          unfold hue
          rw [hRaw]
          exact fract_eq_self_of (by linarith) (by linarith)
        have hh6 : hue (r, g, b) * 6 = 4 + (r - g) / chroma (r, g, b) := by
          rw [hh]; ring
        rw [hh6, sectorTriple_sec4 _ _ _ (by linarith) (by linarith)]
        have hx : xval (chroma (r, g, b)) (4 + (r - g) / chroma (r, g, b)) = r - g := by
          unfold xval
          rw [hmod2_eq2 (by linarith) (by linarith),
            abs_of_nonpos (by linarith : 4 + (r - g) / chroma (r, g, b) - 4 - 1 ≤ 0)]
          field_simp
          ring
        rw [hx, hm, hcval]
        exact Prod.ext (by ring) (Prod.ext (by ring) (by ring))
      · -- sector 5 boundary: g ≤ r and r = b (so h' = 5 exactly)
        have hrbeq : r = b := le_antisymm hrb hbr
        have hm : minc (r, g, b) = g := by
          show min (min r g) b = g
          rw [min_eq_right hgr, min_eq_left hgb]
        have hcval : chroma (r, g, b) = b - g := by rw [hchroma, hb, hm]
        have hq : (r - g) / chroma (r, g, b) = 1 := by
          rw [hcval, ← hrbeq]
          exact div_self (by rw [hcval, ← hrbeq] at hcne; exact hcne)
        have hh : hue (r, g, b) = 5 / 6 := by
          unfold hue
          rw [hRaw, hq]
          norm_num
        have hh6 : hue (r, g, b) * 6 = 5 := by rw [hh]; ring
        rw [hh6, sectorTriple_sec5 _ _ _ (by norm_num) (by norm_num)]
        have hx : xval (chroma (r, g, b)) 5 = chroma (r, g, b) := by
          unfold xval
          rw [hmod2_eq2 (by norm_num) (by norm_num)]
          norm_num
        rw [hx, hm, hcval, hrbeq]
        exact Prod.ext (by ring) (Prod.ext (by ring) (by ring))
  · by_cases hg : maxc (r, g, b) = g
    · -- maxc == g (and maxc ≠ b, so b < g)
      have hRaw : hueRaw (r, g, b) = 2 + (b - r) / chroma (r, g, b) := by
        simp only [hueRaw]
        rw [if_neg hcne, if_neg hb, if_pos hg]
      have hbg : b < g := lt_of_le_of_ne (hg ▸ hbM) (fun e => hb (hg.trans e.symm))
      have hrg : r ≤ g := hg ▸ hrM
      rcases lt_or_le b r with hbr | hrb
      · -- sector 1: b < r ≤ g
        have hm : minc (r, g, b) = b := by
          show min (min r g) b = b
          rw [min_eq_left hrg, min_eq_right hbr.le]
        have hcval : chroma (r, g, b) = g - b := by rw [hchroma, hg, hm]
        have hq1 : (b - r) / chroma (r, g, b) < 0 :=
          div_neg_of_neg_of_pos (by linarith) hc
        have hq2 : -1 ≤ (b - r) / chroma (r, g, b) := by
          rw [le_div_iff₀ hc, hcval]
          linarith
        have hh : hue (r, g, b) = (2 + (b - r) / chroma (r, g, b)) / 6 := by
          unfold hue
          rw [hRaw]
          exact fract_eq_self_of (by linarith) (by linarith)
        have hh6 : hue (r, g, b) * 6 = 2 + (b - r) / chroma (r, g, b) := by
          rw [hh]; ring
        rw [hh6, sectorTriple_sec1 _ _ _ (by linarith) (by linarith)]
        have hx : xval (chroma (r, g, b)) (2 + (b - r) / chroma (r, g, b)) = r - b := by
          unfold xval
          rw [hmod2_eq0 (by linarith) (by linarith),
            abs_of_nonneg (by linarith : (0:ℝ) ≤ 2 + (b - r) / chroma (r, g, b) - 1)]
          field_simp
          ring
        rw [hx, hm, hcval]
        exact Prod.ext (by ring) (Prod.ext (by ring) (by ring))
      · -- sector 2: r ≤ b < g
        have hm : minc (r, g, b) = r := by
          show min (min r g) b = r
          rw [min_eq_left hrg, min_eq_left hrb]
        have hcval : chroma (r, g, b) = g - r := by rw [hchroma, hg, hm]
        have hq1 : 0 ≤ (b - r) / chroma (r, g, b) :=
          div_nonneg (by linarith) hc.le
        have hq2 : (b - r) / chroma (r, g, b) < 1 := by
          rw [div_lt_one hc, hcval]
          linarith
        have hh : hue (r, g, b) = (2 + (b - r) / chroma (r, g, b)) / 6 := by
          unfold hue
          rw [hRaw]
          exact fract_eq_self_of (by linarith) (by linarith)
        have hh6 : hue (r, g, b) * 6 = 2 + (b - r) / chroma (r, g, b) := by
          rw [hh]; ring
        rw [hh6, sectorTriple_sec2 _ _ _ (by linarith) (by linarith)]
        have hx : xval (chroma (r, g, b)) (2 + (b - r) / chroma (r, g, b)) = b - r := by
          unfold xval
          rw [hmod2_eq1 (by linarith) (by linarith),
            abs_of_nonpos (by linarith : 2 + (b - r) / chroma (r, g, b) - 2 - 1 ≤ 0)]
          field_simp
          ring
        rw [hx, hm, hcval]
        exact Prod.ext (by ring) (Prod.ext (by ring) (by ring))
    · -- maxc == r only (g < r, b < r)
      have hRaw : hueRaw (r, g, b) = (g - b) / chroma (r, g, b) := by
        simp only [hueRaw]
        rw [if_neg hcne, if_neg hb, if_neg hg]
      have hM : maxc (r, g, b) = r := by
        rcases max_choice (max r g) b with h | h
        · rcases max_choice r g with h' | h'
          · exact (show maxc (r, g, b) = max r g from h).trans h'
          · exact absurd ((show maxc (r, g, b) = max r g from h).trans h') hg
        · exact absurd h hb
      have hgr : g < r := lt_of_le_of_ne (hM ▸ hgM) (fun e => hg (hM.trans e.symm))
      have hbr : b < r := lt_of_le_of_ne (hM ▸ hbM) (fun e => hb (hM.trans e.symm))
      rcases le_or_lt b g with hbg | hgb
      · -- sector 0: b ≤ g < r
        have hm : minc (r, g, b) = b := by
          show min (min r g) b = b
          rw [min_eq_right hgr.le, min_eq_right hbg]
        have hcval : chroma (r, g, b) = r - b := by rw [hchroma, hM, hm]
        have hq1 : 0 ≤ (g - b) / chroma (r, g, b) :=
          div_nonneg (by linarith) hc.le
        have hq2 : (g - b) / chroma (r, g, b) < 1 := by
          rw [div_lt_one hc, hcval]
          linarith
        have hh : hue (r, g, b) = ((g - b) / chroma (r, g, b)) / 6 := by
          unfold hue
          rw [hRaw]
          exact fract_eq_self_of (by linarith) (by linarith)
        have hh6 : hue (r, g, b) * 6 = (g - b) / chroma (r, g, b) := by
          rw [hh]; ring
        rw [hh6, sectorTriple_sec0 _ _ _ (by linarith) (by linarith)]
        have hx : xval (chroma (r, g, b)) ((g - b) / chroma (r, g, b)) = g - b := by
          unfold xval
          rw [hmod2_eq0 (by linarith) (by linarith),
            abs_of_nonpos (by linarith : (g - b) / chroma (r, g, b) - 1 ≤ 0)]
          field_simp
        rw [hx, hm, hcval]
        exact Prod.ext (by ring) (Prod.ext (by ring) (by ring))
      · -- sector 5: g < b < r
        have hm : minc (r, g, b) = g := by
          show min (min r g) b = g
          rw [min_eq_right hgr.le, min_eq_left hgb.le]
        have hcval : chroma (r, g, b) = r - g := by rw [hchroma, hM, hm]
        have hq1 : (g - b) / chroma (r, g, b) < 0 :=
          div_neg_of_neg_of_pos (by linarith) hc
        have hq2 : -1 ≤ (g - b) / chroma (r, g, b) := by
          rw [le_div_iff₀ hc, hcval]
          linarith
        have hh : hue (r, g, b) = ((g - b) / chroma (r, g, b)) / 6 + 1 := by
          unfold hue
          rw [hRaw]
          exact fract_neg_eq (by linarith) (by linarith)
        have hh6 : hue (r, g, b) * 6 = (g - b) / chroma (r, g, b) + 6 := by
          rw [hh]; ring
        rw [hh6, sectorTriple_sec5 _ _ _ (by linarith) (by linarith)]
        have hx : xval (chroma (r, g, b)) ((g - b) / chroma (r, g, b) + 6) = b - g := by
          unfold xval
          rw [hmod2_eq2 (by linarith) (by linarith),
            abs_of_nonneg (by linarith :
              (0:ℝ) ≤ (g - b) / chroma (r, g, b) + 6 - 4 - 1)]
          field_simp
          ring
        rw [hx, hm, hcval]
        exact Prod.ext (by ring) (Prod.ext (by ring) (by ring))

lemma normal_regime_eval (t1 m c ms ma : ℝ) (hnb : ¬(m + c > 1)) (hneg : ¬(m < 0)) :
    applyRegime t1 m c ms ma = clip01 (t1 + m) := by
  unfold applyRegime
  rw [if_neg hnb, if_neg hneg]

/-- The round trip is exact in real arithmetic: for a `[0,1]` pixel with
positive chroma, the `hcl_to_rgb ∘ rgb_to_hcl` pipeline lands in the
normal regime (`m = minc`, `m + c = maxc ≤ 1`) and restores every channel
exactly. -/
lemma roundtrip_exact (r g b : ℝ) (hr0 : 0 ≤ r) (hr1 : r ≤ 1) (hg0 : 0 ≤ g)
    (hg1 : g ≤ 1) (hb0 : 0 ≤ b) (hb1 : b ≤ 1) (hc : 0 < chroma (r, g, b)) :
    hcl_to_rgb (rgb_to_hcl (r, g, b)) = (r, g, b) := by
  have hm0 : 0 ≤ minc (r, g, b) := le_min (le_min hr0 hg0) hb0
  have hM1 : maxc (r, g, b) ≤ 1 := max_le (max_le hr1 hg1) hb1
  have hch : chroma (r, g, b) = maxc (r, g, b) - minc (r, g, b) := rfl
  simp only [rgb_to_hcl, hcl_to_rgb]
  rw [sector_reconstruct r g b hc]
  have hmv : mval (brightness (r, g, b))
      (r - minc (r, g, b), g - minc (r, g, b), b - minc (r, g, b))
      = minc (r, g, b) := by
    unfold mval brightness
    ring
  have hnb : ¬(mval (brightness (r, g, b))
      (r - minc (r, g, b), g - minc (r, g, b), b - minc (r, g, b))
      + chroma (r, g, b) > 1) := by
    push_neg
    rw [hmv, hch]
    linarith
  have hneg : ¬(mval (brightness (r, g, b))
      (r - minc (r, g, b), g - minc (r, g, b), b - minc (r, g, b)) < 0) := by
    rw [hmv]
    exact not_lt.mpr hm0
  rw [normal_regime_eval _ _ _ _ _ hnb hneg, normal_regime_eval _ _ _ _ _ hnb hneg,
    normal_regime_eval _ _ _ _ _ hnb hneg, hmv]
  rw [show r - minc (r, g, b) + minc (r, g, b) = r from by ring,
    show g - minc (r, g, b) + minc (r, g, b) = g from by ring,
    show b - minc (r, g, b) + minc (r, g, b) = b from by ring]
  rw [clip01_eq_self hr0 hr1, clip01_eq_self hg0 hg1, clip01_eq_self hb0 hb1]

/-- **C1.** For every RGB pixel with all channels in `[0,1]`, positive
chroma and positive luma, `rgb_to_hcl` followed by `hcl_to_rgb` reproduces
the pixel within `1e-6` per channel (in fact exactly, in the real-number
model). -/
theorem C1_roundtrip (r g b : ℝ) (hr0 : 0 ≤ r) (hr1 : r ≤ 1) (hg0 : 0 ≤ g)
    (hg1 : g ≤ 1) (hb0 : 0 ≤ b) (hb1 : b ≤ 1)
    (hc : 0 < chroma (r, g, b)) (hl : 0 < brightness (r, g, b)) :
    |(hcl_to_rgb (rgb_to_hcl (r, g, b))).1 - r| ≤ 1e-6 ∧
    |(hcl_to_rgb (rgb_to_hcl (r, g, b))).2.1 - g| ≤ 1e-6 ∧
    |(hcl_to_rgb (rgb_to_hcl (r, g, b))).2.2 - b| ≤ 1e-6 := by
  rw [roundtrip_exact r g b hr0 hr1 hg0 hg1 hb0 hb1 hc]
  norm_num

/-- Witness for C1 at the pixel `(1, 1/2, 0)` (chroma `1`, luma
`0.5925`). -/
theorem C1_roundtrip_witness :
    |(hcl_to_rgb (rgb_to_hcl ((1:ℝ), 1/2, 0))).1 - 1| ≤ 1e-6 ∧
    |(hcl_to_rgb (rgb_to_hcl ((1:ℝ), 1/2, 0))).2.1 - 1/2| ≤ 1e-6 ∧
    |(hcl_to_rgb (rgb_to_hcl ((1:ℝ), 1/2, 0))).2.2 - 0| ≤ 1e-6 :=
  C1_roundtrip 1 (1/2) 0 (by norm_num) (by norm_num) (by norm_num) (by norm_num)
    (by norm_num) (by norm_num)
    (by norm_num [chroma, maxc, minc])
    (by norm_num [brightness])

end BlendModes
